import Mathlib

/-!
Verification of the ES-module import/export transform of
`@expo/metro-config` (`transform-plugins/import-export-plugin`).

The repository ships only the type declaration of the plugin
(`import-export-plugin.d.ts`); the transform body itself is absent, so the
executable model below is built from the specification's algorithm (§4.1 of
the design document): a two-phase (collect, then emit) pure rewriter over a
closed set of top-level statement kinds.  The `Options` record, however, is
translated directly from the declaration file, which declares the four
fields `importDefault`, `importAll`, `resolve` and the optional output
channel `out : { isESModule : boolean }`.
-/

namespace ImportExport

/-- A source location, abstracted to a single index (standing for a Babel
`SourceLocation`). -/
abbrev Loc := Nat

/-- One binding of an `import` statement: default import, namespace import,
or a named import `{ imported as localName }`. -/
inductive ImportSpecifier where
  | default (localName : String)
  | star (localName : String)
  | named (localName : String) (importedName : String)
deriving DecidableEq

/-- Initializer shapes of the local variables emitted for import bindings:
the module handle itself, the namespace-interop helper applied to the
handle, the default-interop helper applied to the handle, or a property
read off the handle. -/
inductive InitExpr where
  | handle (h : String)
  | allHelper (helper : String) (h : String)
  | defaultHelper (helper : String) (h : String)
  | propRead (h : String) (prop : String)
deriving DecidableEq

/-- Top-level statements.  The first seven constructors are the surface
syntax the parser can produce (`import`, the `export` forms, and any other
statement, abstracted to its bound names and an opaque payload).  The
remaining constructors are the runtime calls the transform emits: a
require call bound to a module-handle temporary, a local binding for
one import binding, the synthesized temporary holding an anonymous default
export, and the export-registration calls. -/
inductive Stmt where
  | importDecl (source : String) (specs : List ImportSpecifier) (loc : Loc)
  | exportDefaultExpr (e : Nat) (loc : Loc)
  | exportDefaultNamed (name : String) (payload : Nat) (loc : Loc)
  | exportDecl (bound : List String) (payload : Nat) (loc : Loc)
  | exportNamedSpecs (specs : List (String × String)) (source : Option String) (loc : Loc)
  | exportAllDecl (source : String) (loc : Loc)
  | other (bound : List String) (payload : Nat)
  | requireCall (resolved : Bool) (handle : String) (source : String)
  | importBinding (name : String) (init : InitExpr)
  | defaultTemp (name : String) (e : Nat)
  | exportAllCall (source : String)
  | exportAssign (exported : String) (localName : String)
  | exportDefaultAssign (localName : String)
deriving DecidableEq

/-- Is this statement ES-module syntax (an `import` or `export` construct)? -/
def Stmt.isESConstruct : Stmt → Bool
  | .importDecl .. => true
  | .exportDefaultExpr .. => true
  | .exportDefaultNamed .. => true
  | .exportDecl .. => true
  | .exportNamedSpecs .. => true
  | .exportAllDecl .. => true
  | _ => false

/-- Is this statement one of the surface-syntax constructors a parsed
program can contain (as opposed to a runtime call emitted by the
transform)? -/
def Stmt.isSurface : Stmt → Bool
  | .importDecl .. => true
  | .exportDefaultExpr .. => true
  | .exportDefaultNamed .. => true
  | .exportDecl .. => true
  | .exportNamedSpecs .. => true
  | .exportAllDecl .. => true
  | .other .. => true
  | _ => false

/-- Is this statement part of the emission for an import record (the
require call or a binding initialized from a module handle)? -/
def Stmt.isImportEmission : Stmt → Bool
  | .requireCall .. => true
  | .importBinding .. => true
  | _ => false

/-- Is this statement an `export default` declaration? -/
def Stmt.isDefaultExport : Stmt → Bool
  | .exportDefaultExpr .. => true
  | .exportDefaultNamed .. => true
  | _ => false

/-- The source location of a default-export statement (0 otherwise). -/
def Stmt.defLoc : Stmt → Loc
  | .exportDefaultExpr _ l => l
  | .exportDefaultNamed _ _ l => l
  | _ => 0

/-- The local name bound by one import specifier. -/
def ImportSpecifier.localName : ImportSpecifier → String
  | .default l => l
  | .star l => l
  | .named l _ => l

/-- Identifiers occurring in an initializer. -/
def InitExpr.idents : InitExpr → List String
  | .handle h => [h]
  | .allHelper f h => [f, h]
  | .defaultHelper f h => [f, h]
  | .propRead h p => [h, p]

/-- The local binding names a statement introduces. -/
def Stmt.boundNames : Stmt → List String
  | .importDecl _ specs _ => specs.map ImportSpecifier.localName
  | .exportDefaultNamed n _ _ => [n]
  | .exportDecl bs _ _ => bs
  | .other bs _ => bs
  | .requireCall _ h _ => [h]
  | .importBinding n _ => [n]
  | .defaultTemp n _ => [n]
  | _ => []

/-- All identifiers a statement mentions (bound or referenced). -/
def Stmt.idents : Stmt → List String
  | .importDecl _ specs _ => specs.map ImportSpecifier.localName
  | .exportDefaultExpr _ _ => []
  | .exportDefaultNamed n _ _ => [n]
  | .exportDecl bs _ _ => bs
  | .exportNamedSpecs specs _ _ => specs.map Prod.fst ++ specs.map Prod.snd
  | .exportAllDecl _ _ => []
  | .other bs _ => bs
  | .requireCall _ h _ => [h]
  | .importBinding n i => n :: i.idents
  | .defaultTemp n _ => [n]
  | .exportAllCall _ => []
  | .exportAssign e l => [e, l]
  | .exportDefaultAssign l => [l]

/-- Every identifier present in a program's scope. -/
def programIdents (p : List Stmt) : List String :=
  p.flatMap Stmt.idents

/-- Every local binding declared anywhere in a program. -/
def localBindings (p : List Stmt) : List String :=
  p.flatMap Stmt.boundNames

/-- The `out` object of the options: the plugin's declared output channel,
`out?: { isESModule: boolean; [key: string]: unknown }`.  The unknown
extra keys are abstracted into a single `extra` payload. -/
structure OutBox where
  isESModule : Bool
  extra : Nat
deriving DecidableEq

/-- The plugin options, translated from `import-export-plugin.d.ts`:
`importDefault` and `importAll` name the interop helpers, `resolve`
toggles the resolution hook, and `out` (when present) receives the
`isESModule` flag. -/
structure Options where
  importDefault : String
  importAll : String
  resolve : Bool
  out : Option OutBox
deriving DecidableEq

/-- One collected `import` statement: source module and bindings. -/
structure ImportRecord where
  sourceModule : String
  bindings : List ImportSpecifier
deriving DecidableEq

/-- One collected `export * from "m"`. -/
structure ExportAllRecord where
  sourceModule : String
  loc : Loc
deriving DecidableEq

/-- The collected `export default`: the local binding holding the value. -/
structure ExportDefaultRecord where
  localName : String
  loc : Loc
deriving DecidableEq

/-- One collected named-export binding. -/
structure ExportNamedRecord where
  localName : String
  exportedName : String
  loc : Loc
deriving DecidableEq

/-- The error taxonomy of the transform.  Every error carries the
originating source location. -/
inductive TransformError where
  | DuplicateDefaultExport (loc : Loc)
  | UndefinedExportBinding (name : String) (loc : Loc)
  | InvalidModuleSpecifier (loc : Loc)
deriving DecidableEq

/-- The source location carried by an error. -/
def TransformError.loc : TransformError → Loc
  | .DuplicateDefaultExport l => l
  | .UndefinedExportBinding _ l => l
  | .InvalidModuleSpecifier l => l

/-- A candidate synthesized name: the base followed by `k` underscores. -/
def candName (base : String) (k : Nat) : String :=
  base ++ String.mk (List.replicate k '_')

/-- Pick a synthesized name based on `base` that does not occur in `used`:
the first candidate (among `used.length + 1` many, one of which must be
free) avoiding `used`. -/
def fresh (used : List String) (base : String) : String :=
  match (List.range (used.length + 1)).find? (fun k => decide (candName base k ∉ used)) with
  | some k => candName base k
  | none => candName base (used.length + 1)


/-- Collection state threaded through phase 1, per §4.1: the import and
export records in source order, the ES-syntax flag, the set of names in
use (seeded with every identifier of the program), the names synthesized
so far, and the translated body (every statement that stays in place). -/
structure CState where
  imports : List ImportRecord
  exportAll : List ExportAllRecord
  exportDefault : Option ExportDefaultRecord
  exportNamed : List ExportNamedRecord
  sawES : Bool
  used : List String
  synthesized : List String
  body : List Stmt
deriving DecidableEq

/-- Collect the records of a source-less `export { a as b, ... }`: each
local must be bound somewhere in the program (`binds`), else the transform
fails with `UndefinedExportBinding`. -/
def collectSpecs (binds : List String) (loc : Loc) :
    List (String × String) → Except TransformError (List ExportNamedRecord)
  | [] => .ok []
  | (l, r) :: rest =>
    if l ∈ binds then
      match collectSpecs binds loc rest with
      | .ok recs => .ok (⟨l, r, loc⟩ :: recs)
      | .error e => .error e
    else .error (.UndefinedExportBinding l loc)

/-- Decompose `export { a as b, ... } from "m"`: for each spec synthesize a
fresh local alias; return the implicit import bindings, the named-export
records, the updated used set and the synthesized aliases. -/
def reexportAliases (used : List String) (specs : List (String × String)) (loc : Loc) :
    List ImportSpecifier × List ExportNamedRecord × List String × List String :=
  match specs with
  | [] => ([], [], used, [])
  | (l, r) :: rest =>
    let a := fresh used "_reexport"
    let (is, rs, u, sy) := reexportAliases (used ++ [a]) rest loc
    (.named a l :: is, ⟨a, r, loc⟩ :: rs, u, a :: sy)

/-- Phase 1, one statement (spec §4.1, collection): classify the statement,
accumulate records, translate what stays in the body, and raise the
diagnostics (`InvalidModuleSpecifier` on an empty specifier,
`DuplicateDefaultExport` on a second default, `UndefinedExportBinding` on
an unbound source-less named export). -/
def collectStmt (binds : List String) (st : CState) :
    Stmt → Except TransformError CState
  | .importDecl src specs loc =>
    if src = "" then .error (.InvalidModuleSpecifier loc)
    else .ok { st with imports := st.imports ++ [⟨src, specs⟩], sawES := true }
  | .exportDefaultExpr e loc =>
    match st.exportDefault with
    | some _ => .error (.DuplicateDefaultExport loc)
    | none =>
      let n := fresh st.used "_default"
      .ok { st with exportDefault := some ⟨n, loc⟩,
                    used := st.used ++ [n],
                    synthesized := st.synthesized ++ [n],
                    sawES := true,
                    body := st.body ++ [.defaultTemp n e] }
  | .exportDefaultNamed n payload loc =>
    match st.exportDefault with
    | some _ => .error (.DuplicateDefaultExport loc)
    | none =>
      .ok { st with exportDefault := some ⟨n, loc⟩, sawES := true,
                    body := st.body ++ [.other [n] payload] }
  | .exportDecl bs payload loc =>
    .ok { st with exportNamed := st.exportNamed ++ bs.map (fun b => ⟨b, b, loc⟩),
                  sawES := true,
                  body := st.body ++ [.other bs payload] }
  | .exportNamedSpecs specs osrc loc =>
    match osrc with
    | none =>
      match collectSpecs binds loc specs with
      | .error e => .error e
      | .ok recs => .ok { st with exportNamed := st.exportNamed ++ recs, sawES := true }
    | some src =>
      if src = "" then .error (.InvalidModuleSpecifier loc)
      else
        let (aliasSpecs, recs, u, sy) := reexportAliases st.used specs loc
        .ok { st with imports := st.imports ++ [⟨src, aliasSpecs⟩],
                      exportNamed := st.exportNamed ++ recs,
                      used := u,
                      synthesized := st.synthesized ++ sy,
                      sawES := true }
  | .exportAllDecl src loc =>
    if src = "" then .error (.InvalidModuleSpecifier loc)
    else .ok { st with exportAll := st.exportAll ++ [⟨src, loc⟩], sawES := true }
  | s => .ok { st with body := st.body ++ [s] }

/-- Phase 1 over a statement list, aborting on the first diagnostic. -/
def collectList (binds : List String) (st : CState) :
    List Stmt → Except TransformError CState
  | [] => .ok st
  | s :: rest =>
    match collectStmt binds st s with
    | .error e => .error e
    | .ok st' => collectList binds st' rest

/-- The initial collection state of a program: no records, the flag down,
and the used set seeded with every identifier of the program. -/
def initState (p : List Stmt) : CState :=
  ⟨[], [], none, [], false, programIdents p, [], []⟩

/-- Phase 1 over a whole program. -/
def collect (p : List Stmt) : Except TransformError CState :=
  collectList (localBindings p) (initState p) p

/-- Emission of the local bindings of one import record off its module
handle: default imports through the `importDefault` helper, and namespace
ones through the `importAll` helper, named imports as property reads. -/
def emitBindings (opts : Options) (h : String) :
    List ImportSpecifier → List Stmt
  | [] => []
  | .default l :: rest =>
    .importBinding l (.defaultHelper opts.importDefault h) :: emitBindings opts h rest
  | .star l :: rest =>
    .importBinding l (.allHelper opts.importAll h) :: emitBindings opts h rest
  | .named l imp :: rest =>
    .importBinding l (.propRead h imp) :: emitBindings opts h rest

/-- Emission of the hoisted import block (spec §4.1, emission steps 1-2):
one require call per import record in original order, bound to a fresh
module-handle temporary, followed by that record's bindings.  Returns the
statements, the final used set and the synthesized handles. -/
def emitImports (opts : Options) (used : List String) :
    List ImportRecord → List Stmt × List String × List String
  | [] => ([], used, [])
  | r :: rest =>
    let h := fresh used "_module"
    let (ss, u, sy) := emitImports opts (used ++ [h]) rest
    (.requireCall opts.resolve h r.sourceModule :: (emitBindings opts h r.bindings ++ ss),
     u, h :: sy)

/-- Emission step 4: one re-export-all runtime call per record, in order. -/
def emitExportAll (l : List ExportAllRecord) : List Stmt :=
  l.map (fun r => .exportAllCall r.sourceModule)

/-- Emission step 5: one `exports[remote] = local` call per record. -/
def emitExportNamed (l : List ExportNamedRecord) : List Stmt :=
  l.map (fun r => .exportAssign r.exportedName r.localName)

/-- Emission step 6: `exports.default = local` when a default was collected. -/
def emitExportDefault : Option ExportDefaultRecord → List Stmt
  | none => []
  | some r => [.exportDefaultAssign r.localName]

/-- The transform's result: the ES-module flag, the rewritten statement
list, the content of the options' `out` object after the call (explicit
state passing of the plugin's write to `out.isESModule`), and the names
the transform synthesized. -/
structure TransformResult where
  isESModule : Bool
  rewrittenStatements : List Stmt
  outAfter : Option OutBox
  synthesized : List String
deriving DecidableEq

/-- The whole transform: collect, then emit
`imports ++ body ++ exportAll ++ exportNamed ++ exportDefault`, set the
flag, and write `out.isESModule` when the caller supplied an `out`. -/
def transform (p : List Stmt) (opts : Options) :
    Except TransformError TransformResult :=
  match collect p with
  | .error e => .error e
  | .ok st =>
    let (impStmts, _, handleSy) := emitImports opts st.used st.imports
    .ok ⟨st.sawES,
         impStmts ++ st.body ++ emitExportAll st.exportAll
           ++ emitExportNamed st.exportNamed ++ emitExportDefault st.exportDefault,
         opts.out.map (fun b => ⟨st.sawES, b.extra⟩),
         st.synthesized ++ handleSy⟩

/-- A runtime module environment: for each module specifier, the
properties the module defines (as seen at runtime). -/
def ModuleEnv := String → String → Option Nat

/-- The current module's export object: exported name to value. -/
def Exports := String → Option Nat

/-- Runtime effect of one emitted statement on the export object, given
the module environment and the values of the local bindings:
`exportAllCall m` copies every property `m` defines (overwriting),
`exportAssign` and `exportDefaultAssign` write single properties, and
every other statement leaves the export object alone. -/
def runStmt (env : ModuleEnv) (rho : String → Nat) (ex : Exports) :
    Stmt → Exports
  | .exportAllCall m => fun k =>
      match env m k with
      | some v => some v
      | none => ex k
  | .exportAssign remote l => fun k => if k = remote then some (rho l) else ex k
  | .exportDefaultAssign l => fun k => if k = "default" then some (rho l) else ex k
  | _ => ex

/-- Runtime effect of a statement sequence on the export object. -/
def runStmts (env : ModuleEnv) (rho : String → Nat) (ex : Exports)
    (l : List Stmt) : Exports :=
  l.foldl (runStmt env rho) ex

/-- The caller's store: a sequence of cells each holding a program.  This
makes the frame property of the transform statable: an invocation may read
the caller's cell but the rewritten output lives in a new cell. -/
abbrev Store := List (List Stmt)

/-- Invoke the transform on the program held in cell `i` of the caller's
store.  On success the rewritten statement list is placed in a freshly
appended cell; the existing cells are never written. -/
def invoke (sigma : Store) (i : Nat) (opts : Options) :
    Store × Except TransformError TransformResult :=
  match sigma[i]? with
  | none => (sigma, .error (.InvalidModuleSpecifier 0))
  | some p =>
    match transform p opts with
    | .error e => (sigma, .error e)
    | .ok r => (sigma ++ [r.rewrittenStatements], .ok r)

/-- The sources of the import statements of a program, in source order
(`export ... from "m"` decomposes into an implicit import of `m`). -/
def importSourcesOf : List Stmt → List String
  | [] => []
  | .importDecl s _ _ :: rest => s :: importSourcesOf rest
  | .exportNamedSpecs _ (some s) _ :: rest => s :: importSourcesOf rest
  | _ :: rest => importSourcesOf rest

/-- The sources of the `export * from` statements of a program, in order. -/
def exportAllSources : List Stmt → List String
  | [] => []
  | .exportAllDecl s _ :: rest => s :: exportAllSources rest
  | _ :: rest => exportAllSources rest

/-- The names a program exports through named or default exports (not
counting `export *`). -/
def exportedNames : List Stmt → List String
  | [] => []
  | .exportDecl bs _ _ :: rest => bs ++ exportedNames rest
  | .exportNamedSpecs specs _ _ :: rest => specs.map Prod.snd ++ exportedNames rest
  | .exportDefaultExpr _ _ :: rest => "default" :: exportedNames rest
  | .exportDefaultNamed _ _ _ :: rest => "default" :: exportedNames rest
  | _ :: rest => exportedNames rest

/-- The sources of the require calls of a statement list, in order. -/
def requireSources : List Stmt → List String
  | [] => []
  | .requireCall _ _ s :: rest => s :: requireSources rest
  | _ :: rest => requireSources rest

/-- The source locations of the ES-module statements of a program. -/
def programLocs (p : List Stmt) : List Loc :=
  p.flatMap fun s =>
    match s with
    | .importDecl _ _ l => [l]
    | .exportDefaultExpr _ l => [l]
    | .exportDefaultNamed _ _ l => [l]
    | .exportDecl _ _ l => [l]
    | .exportNamedSpecs _ _ l => [l]
    | .exportAllDecl _ l => [l]
    | _ => []

/-- Does a statement write to the export object at runtime? -/
def Stmt.touchesExports : Stmt → Bool
  | .exportAllCall _ => true
  | .exportAssign _ _ => true
  | .exportDefaultAssign _ => true
  | _ => false

/-- Does every source-less named export of the program export only locally
bound names? -/
def sourcelessExportLocalsBound (q : List Stmt) : Bool :=
  q.all fun s =>
    match s with
    | .exportNamedSpecs specs none _ => specs.all (fun pr => (localBindings q).contains pr.1)
    | _ => true

/-- Fixture options used by the concrete witnesses. -/
def optsW : Options := ⟨"_importDefault", "_importAll", true, some ⟨false, 5⟩⟩

/-- Fixture: a surface program with an import, a plain statement and a
re-export-all. -/
def progC1 : List Stmt := [.other ["a"] 0, .importDecl "m" [.star "NS"] 1, .exportAllDecl "z" 2]

/-- Fixture: the transform of `progC1`. -/
def resC1 : TransformResult :=
  ⟨true,
   [.requireCall true "_module" "m",
    .importBinding "NS" (.allHelper "_importAll" "_module"),
    .other ["a"] 0, .exportAllCall "z"],
   some ⟨true, 5⟩, ["_module"]⟩

/-- Fixture: the degenerate program `export {}`. -/
def progC3 : List Stmt := [.exportNamedSpecs [] none 3]

/-- Fixture: the transform of `progC3`. -/
def resC3 : TransformResult := ⟨true, [], some ⟨true, 5⟩, []⟩

/-- Fixture: a program with no ES-module syntax. -/
def progC4 : List Stmt := [.other ["a"] 7, .other [] 8]

/-- Fixture: a one-import program. -/
def qC4 : List Stmt := [.importDecl "m" [.default "D"] 0]

/-- Fixture: the transform of `qC4`. -/
def resC4q : TransformResult :=
  ⟨true,
   [.requireCall true "_module" "m",
    .importBinding "D" (.defaultHelper "_importDefault" "_module")],
   some ⟨true, 5⟩, ["_module"]⟩

/-- Fixture: `export default 1; export default 2;`. -/
def progC2 : List Stmt := [.exportDefaultExpr 1 10, .exportDefaultExpr 2 20]

/-- Fixture: the prefix of `progC2` before the second default export. -/
def preC2 : List Stmt := [.exportDefaultExpr 1 10]

/-- Fixture: the collection state after the prefix `preC2`. -/
def stC2 : CState :=
  ⟨[], [], some ⟨"_default", 10⟩, [], true, ["_default"], ["_default"],
   [.defaultTemp "_default" 1]⟩

/-- Fixture: `export { missing };` with no local binding of `missing`. -/
def progC6 : List Stmt := [.exportNamedSpecs [("missing", "m2")] none 5]

/-- Fixture: `export const v = ...;`. -/
def qC6 : List Stmt := [.exportDecl ["v"] 1 2]

/-- Fixture: the transform of `qC6`. -/
def resC6q : TransformResult :=
  ⟨true, [.other ["v"] 1, .exportAssign "v" "v"], some ⟨true, 5⟩, []⟩

/-- Fixture: `export * from "a"; export * from "b";`. -/
def progC5 : List Stmt := [.exportAllDecl "a" 0, .exportAllDecl "b" 1]

/-- Fixture: the transform of `progC5`. -/
def resC5 : TransformResult :=
  ⟨true, [.exportAllCall "a", .exportAllCall "b"], some ⟨true, 5⟩, []⟩

/-- Fixture: a runtime module environment where modules `a` and `b` both
define the property `x` (with different values). -/
def envW : ModuleEnv := fun m k =>
  if m = "a" ∧ k = "x" then some 1
  else if m = "b" ∧ k = "x" then some 2
  else none

/-- Fixture: local-binding values at runtime. -/
def rhoW : String → Nat := fun _ => 0

/-- Fixture: the empty export object. -/
def exW : Exports := fun _ => none

/-- Fixture: a program with two default exports (the second at location 9). -/
def progC7 : List Stmt := [.exportDefaultExpr 1 4, .exportDefaultExpr 2 9]

/-- Fixture: a caller store holding one program. -/
def sigmaW : Store := [progC4]

/-- Fixture: `export default 42;` preceded by a statement already binding
the name `_default` that the gensym would otherwise pick. -/
def progC9 : List Stmt := [.other ["_default"] 0, .exportDefaultExpr 42 1]

/-- Fixture: the transform of `progC9`. -/
def resC9 : TransformResult :=
  ⟨true,
   [.other ["_default"] 0, .defaultTemp "_default_" 42,
    .exportDefaultAssign "_default_"],
   some ⟨true, 5⟩, ["_default_"]⟩

/-- Fixture: `import React from "react";`. -/
def prog10 : List Stmt := [.importDecl "react" [.default "React"] 0]

/-- Fixture: options whose `out` object starts with `isESModule = false`. -/
def opts10 : Options := ⟨"importDefault", "importAll", false, some ⟨false, 7⟩⟩

/-- Fixture: the transform of `prog10` under `opts10`. -/
def res10 : TransformResult :=
  ⟨true,
   [.requireCall false "_module" "react",
    .importBinding "React" (.defaultHelper "importDefault" "_module")],
   some ⟨true, 7⟩, ["_module"]⟩

theorem candName_length (base : String) (k : Nat) :
    (candName base k).length = base.length + k := by
  simp [candName, String.length_append, String.length_mk]

theorem candName_injective (base : String) :
    Function.Injective (candName base) := by
  intro k₁ k₂ h
  have h' := congrArg String.length h
  rw [candName_length, candName_length] at h'
  omega

/-- The synthesized name really is fresh. -/
theorem fresh_not_mem (used : List String) (base : String) :
    fresh used base ∉ used := by
  unfold fresh
  cases hf : (List.range (used.length + 1)).find?
      (fun k => decide (candName base k ∉ used)) with
  | some k =>
    have := List.find?_some hf
    simpa using this
  | none =>
    exfalso
    have hall : ∀ k ∈ List.range (used.length + 1), candName base k ∈ used := by
      intro k hk
      have := List.find?_eq_none.mp hf k hk
      simpa using this
    have hsub : (List.range (used.length + 1)).map (candName base) ⊆ used := by
      intro s hs
      rcases List.mem_map.mp hs with ⟨k, hk, rfl⟩
      exact hall k hk
    have hnd : ((List.range (used.length + 1)).map (candName base)).Nodup :=
      (List.nodup_range _).map (candName_injective base)
    have hle := (List.subperm_of_subset hnd hsub).length_le
    simp at hle

theorem collectList_cons_ok {binds : List String} {st st' : CState} {s : Stmt}
    {rest : List Stmt} (h : collectList binds st (s :: rest) = .ok st') :
    ∃ st₁, collectStmt binds st s = .ok st₁ ∧ collectList binds st₁ rest = .ok st' := by
  simp only [collectList] at h
  cases hs : collectStmt binds st s with
  | error e => rw [hs] at h; cases h
  | ok st₁ => rw [hs] at h; exact ⟨st₁, rfl, h⟩

theorem collectStmt_not_es (binds : List String) (st : CState) (s : Stmt)
    (h : s.isESConstruct = false) :
    collectStmt binds st s = .ok { st with body := st.body ++ [s] } := by
  cases s <;> simp [Stmt.isESConstruct] at h <;> rfl

theorem collect_sources (binds : List String) (p : List Stmt) :
    ∀ st st', collectList binds st p = .ok st' →
      st'.imports.map ImportRecord.sourceModule
          = st.imports.map ImportRecord.sourceModule ++ importSourcesOf p
      ∧ st'.exportAll.map ExportAllRecord.sourceModule
          = st.exportAll.map ExportAllRecord.sourceModule ++ exportAllSources p
      ∧ st'.sawES = (st.sawES || p.any Stmt.isESConstruct) := by
  induction p with
  | nil =>
    intro st st' h
    simp only [collectList] at h
    cases h
    simp [importSourcesOf, exportAllSources]
  | cons s rest ih =>
    intro st st' h
    obtain ⟨st₁, hs, hrest⟩ := collectList_cons_ok h
    obtain ⟨ih₁, ih₂, ih₃⟩ := ih st₁ st' hrest
    cases s <;> simp only [collectStmt] at hs <;>
      (repeat' split at hs) <;> cases hs <;>
      simp_all [importSourcesOf, exportAllSources, Stmt.isESConstruct]

theorem collectSpecs_ok {binds : List String} {loc : Loc}
    {specs : List (String × String)} {recs : List ExportNamedRecord}
    (h : collectSpecs binds loc specs = .ok recs) :
    (∀ r ∈ recs, r.exportedName ∈ specs.map Prod.snd)
    ∧ (∀ pr ∈ specs, pr.1 ∈ binds) := by
  induction specs generalizing recs with
  | nil =>
    simp only [collectSpecs] at h
    cases h
    simp
  | cons pr rest ih =>
    obtain ⟨l, r⟩ := pr
    simp only [collectSpecs] at h
    split at h
    · cases hr : collectSpecs binds loc rest with
      | error e => rw [hr] at h; cases h
      | ok recs' =>
        rw [hr] at h
        cases h
        obtain ⟨ih₁, ih₂⟩ := ih hr
        constructor
        · intro x hx
          rcases List.mem_cons.mp hx with rfl | hx
          · simp [ExportNamedRecord.exportedName]
          · simp only [List.map_cons, List.mem_cons]
            exact Or.inr (ih₁ x hx)
        · intro q hq
          rcases List.mem_cons.mp hq with rfl | hq
          · assumption
          · exact ih₂ q hq
    · cases h

theorem collectSpecs_error_loc {binds : List String} {loc : Loc}
    {specs : List (String × String)} {e : TransformError}
    (h : collectSpecs binds loc specs = .error e) : e.loc = loc := by
  induction specs with
  | nil => simp only [collectSpecs] at h; cases h
  | cons pr rest ih =>
    obtain ⟨l, r⟩ := pr
    simp only [collectSpecs] at h
    split at h
    · cases hr : collectSpecs binds loc rest with
      | error e' => rw [hr] at h; cases h; exact ih hr
      | ok recs' => rw [hr] at h; cases h
    · cases h; rfl

theorem reexportAliases_remotes {loc : Loc} (specs : List (String × String)) :
    ∀ u, ∀ r ∈ (reexportAliases u specs loc).2.1,
      r.exportedName ∈ specs.map Prod.snd := by
  induction specs with
  | nil => intro u r hr; simp [reexportAliases] at hr
  | cons pr rest ih =>
    obtain ⟨l, rm⟩ := pr
    intro u r hr
    simp only [reexportAliases] at hr
    rcases List.mem_cons.mp hr with rfl | hr
    · simp [ExportNamedRecord.exportedName]
    · simp only [List.map_cons, List.mem_cons]
      exact Or.inr (ih (u ++ [fresh u "_reexport"]) r hr)

theorem reexportAliases_names {loc : Loc} (specs : List (String × String)) :
    ∀ u X, X ⊆ u →
      u ⊆ (reexportAliases u specs loc).2.2.1
      ∧ (∀ n ∈ (reexportAliases u specs loc).2.2.2, n ∉ X) := by
  induction specs with
  | nil =>
    intro u X _
    constructor
    · simp [reexportAliases]
    · intro n hn
      simp [reexportAliases] at hn
  | cons pr rest ih =>
    obtain ⟨l, rm⟩ := pr
    intro u X hX
    have hfr := fresh_not_mem u "_reexport"
    have hstep : u ⊆ u ++ [fresh u "_reexport"] := by
      intro a ha; exact List.mem_append_left _ ha
    obtain ⟨ih₁, ih₂⟩ := ih (u ++ [fresh u "_reexport"]) X
      (fun {a} ha => hstep (hX ha))
    constructor
    · intro a ha
      simp only [reexportAliases]
      exact ih₁ (hstep ha)
    · intro n hn
      simp only [reexportAliases, List.mem_cons] at hn
      rcases hn with rfl | hn
      · exact fun hc => hfr (hX hc)
      · exact ih₂ n hn

theorem collect_defaults (binds : List String) (p : List Stmt) :
    ∀ st st', collectList binds st p = .ok st' →
      (∀ d, st.exportDefault = some d → st'.exportDefault = some d)
      ∧ (∀ d, st'.exportDefault = some d →
          st.exportDefault = some d ∨ "default" ∈ exportedNames p)
      ∧ (st.exportDefault = none → (p.filter Stmt.isDefaultExport).length ≤ 1)
      ∧ (∀ d, st.exportDefault = some d → (p.filter Stmt.isDefaultExport).length = 0) := by
  induction p with
  | nil =>
    intro st st' h
    simp only [collectList] at h
    cases h
    simp [exportedNames]
  | cons s rest ih =>
    intro st st' h
    obtain ⟨st₁, hs, hrest⟩ := collectList_cons_ok h
    obtain ⟨ih₁, ih₂, ih₃, ih₄⟩ := ih st₁ st' hrest
    cases s <;> simp only [collectStmt] at hs <;>
      (repeat' split at hs) <;> cases hs <;>
      simp_all [exportedNames, Stmt.isDefaultExport, List.filter] <;>
      (try exact fun d hd => (ih₂ d hd).imp id Or.inr)

theorem exportedNames_cons (s : Stmt) (rest : List Stmt) :
    exportedNames (s :: rest) = exportedNames [s] ++ exportedNames rest := by
  cases s <;> simp [exportedNames]

theorem collectStmt_named_sub {binds : List String} {st st₁ : CState} {s : Stmt}
    (h : collectStmt binds st s = .ok st₁) :
    ∀ r ∈ st₁.exportNamed,
      r ∈ st.exportNamed ∨ r.exportedName ∈ exportedNames [s] := by
  cases s <;> simp only [collectStmt] at h <;>
    (repeat' split at h) <;> cases h <;> intro r hr <;>
    (try exact Or.inl hr) <;>
    rcases List.mem_append.mp hr with h1 | h2 <;>
    (try exact Or.inl h1)
  case exportDecl bs payload loc =>
    right
    rcases List.mem_map.mp h2 with ⟨b, hb, rfl⟩
    simpa [exportedNames, ExportNamedRecord.exportedName] using hb
  case exportNamedSpecs.h_1.h_2 specs loc osrc x recs heq =>
    right
    simpa [exportedNames] using (collectSpecs_ok heq).1 r h2
  case exportNamedSpecs.h_2.isFalse.refl.inr =>
    right
    simpa [exportedNames] using reexportAliases_remotes _ st.used _ h2

theorem collectStmt_specs_bound {binds : List String} {st st₁ : CState}
    {specs : List (String × String)} {loc : Loc}
    (h : collectStmt binds st (.exportNamedSpecs specs none loc) = .ok st₁) :
    ∀ pr ∈ specs, pr.1 ∈ binds := by
  simp only [collectStmt] at h
  cases hr : collectSpecs binds loc specs with
  | error e => rw [hr] at h; cases h
  | ok recs => exact (collectSpecs_ok hr).2

theorem collect_named (binds : List String) (p : List Stmt) :
    ∀ st st', collectList binds st p = .ok st' →
      (∀ r ∈ st'.exportNamed, r ∈ st.exportNamed ∨ r.exportedName ∈ exportedNames p)
      ∧ (∀ specs loc, Stmt.exportNamedSpecs specs none loc ∈ p →
          ∀ pr ∈ specs, pr.1 ∈ binds) := by
  induction p with
  | nil =>
    intro st st' h
    simp only [collectList] at h
    cases h
    constructor
    · exact fun r hr => Or.inl hr
    · intro specs loc hmem
      simp at hmem
  | cons s rest ih =>
    intro st st' h
    obtain ⟨st₁, hs, hrest⟩ := collectList_cons_ok h
    obtain ⟨ih₁, ih₂⟩ := ih st₁ st' hrest
    constructor
    · intro r hr
      rcases ih₁ r hr with hmem | hrem
      · rcases collectStmt_named_sub hs r hmem with h1 | h2
        · exact Or.inl h1
        · right
          rw [exportedNames_cons]
          exact List.mem_append_left _ h2
      · right
        rw [exportedNames_cons]
        exact List.mem_append_right _ hrem
    · intro specs' loc' hmem pr hpr
      rcases List.mem_cons.mp hmem with heq | hmem
      · subst heq
        exact collectStmt_specs_bound hs pr hpr
      · exact ih₂ specs' loc' hmem pr hpr

theorem collectStmt_body {binds : List String} {st st₁ : CState} {s : Stmt}
    (h : collectStmt binds st s = .ok st₁) :
    ∃ δ, st₁.body = st.body ++ δ
      ∧ (s.isESConstruct = false → δ = [s])
      ∧ (∀ t ∈ δ, t.isESConstruct = false)
      ∧ (s.isSurface = true →
          ∀ t ∈ δ, t.isImportEmission = false ∧ t.touchesExports = false) := by
  cases s <;> simp only [collectStmt] at h <;>
    (repeat' split at h) <;> cases h <;>
    first
    | (refine ⟨[], ?_, ?_, ?_, ?_⟩ <;> simp [Stmt.isESConstruct] <;> done)
    | (refine ⟨_, rfl, ?_, ?_, ?_⟩ <;>
        simp [Stmt.isESConstruct, Stmt.isSurface, Stmt.isImportEmission,
          Stmt.touchesExports] <;> done)

theorem collect_body (binds : List String) (p : List Stmt) :
    ∀ st st', collectList binds st p = .ok st' →
      ∃ tail, st'.body = st.body ++ tail
        ∧ List.Sublist (p.filter (fun s => !s.isESConstruct)) tail
        ∧ (∀ t ∈ tail, t.isESConstruct = false)
        ∧ ((∀ s ∈ p, s.isSurface = true) →
            ∀ t ∈ tail, t.isImportEmission = false ∧ t.touchesExports = false) := by
  induction p with
  | nil =>
    intro st st' h
    simp only [collectList] at h
    cases h
    exact ⟨[], by simp, by simp, by simp, by simp⟩
  | cons s rest ih =>
    intro st st' h
    obtain ⟨st₁, hs, hrest⟩ := collectList_cons_ok h
    obtain ⟨tail, htail, hsub, hES, hsurf⟩ := ih st₁ st' hrest
    obtain ⟨δ, hδ, hδs, hδES, hδsurf⟩ := collectStmt_body hs
    refine ⟨δ ++ tail, by rw [htail, hδ, List.append_assoc], ?_, ?_, ?_⟩
    · by_cases hes : s.isESConstruct = true
      · have heq : (s :: rest).filter (fun t => !t.isESConstruct)
            = rest.filter (fun t => !t.isESConstruct) := by
          simp [List.filter, hes]
        rw [heq]
        exact hsub.trans (List.sublist_append_right δ tail)
      · have hfalse : s.isESConstruct = false := by simpa using hes
        rw [hδs hfalse]
        have heq : (s :: rest).filter (fun t => !t.isESConstruct)
            = s :: rest.filter (fun t => !t.isESConstruct) := by
          simp [List.filter, hfalse]
        rw [heq]
        exact List.Sublist.cons₂ s hsub
    · intro t ht
      rcases List.mem_append.mp ht with h1 | h2
      · exact hδES t h1
      · exact hES t h2
    · intro hall t ht
      rcases List.mem_append.mp ht with h1 | h2
      · exact hδsurf (hall s (by simp)) t h1
      · exact hsurf (fun q hq => hall q (List.mem_cons_of_mem s hq)) t h2

theorem collectStmt_names {binds : List String} {st st₁ : CState} {s : Stmt}
    (h : collectStmt binds st s = .ok st₁) :
    ∀ X : List String, X ⊆ st.used → (∀ n ∈ st.synthesized, n ∉ X) →
      X ⊆ st₁.used ∧ (∀ n ∈ st₁.synthesized, n ∉ X) := by
  cases s <;> simp only [collectStmt] at h <;>
    (repeat' split at h) <;> cases h <;> intro X hX hsyn <;>
    (try exact ⟨hX, hsyn⟩)
  case exportDefaultExpr.h_2 e loc hnone =>
    constructor
    · intro a ha
      exact List.mem_append_left _ (hX ha)
    · intro n hn
      rcases List.mem_append.mp hn with h1 | h2
      · exact hsyn n h1
      · have : n = fresh st.used "_default" := by simpa using h2
        subst this
        exact fun hc => fresh_not_mem st.used "_default" (hX hc)
  case exportNamedSpecs.h_2.isFalse specs loc osrc src hne =>
    obtain ⟨hu, hsy⟩ := reexportAliases_names specs st.used X hX
    constructor
    · intro a ha
      exact hu (hX ha)
    · intro n hn
      rcases List.mem_append.mp hn with h1 | h2
      · exact hsyn n h1
      · exact hsy n h2

theorem collect_names (binds : List String) (p : List Stmt) :
    ∀ st st', collectList binds st p = .ok st' →
      ∀ X, X ⊆ st.used → (∀ n ∈ st.synthesized, n ∉ X) →
        X ⊆ st'.used ∧ (∀ n ∈ st'.synthesized, n ∉ X) := by
  induction p with
  | nil =>
    intro st st' h X hX hsyn
    simp only [collectList] at h
    cases h
    exact ⟨hX, hsyn⟩
  | cons s rest ih =>
    intro st st' h X hX hsyn
    obtain ⟨st₁, hs, hrest⟩ := collectList_cons_ok h
    obtain ⟨hX₁, hsyn₁⟩ := collectStmt_names hs X hX hsyn
    exact ih st₁ st' hrest X hX₁ hsyn₁

theorem requireSources_append (l₁ l₂ : List Stmt) :
    requireSources (l₁ ++ l₂) = requireSources l₁ ++ requireSources l₂ := by
  induction l₁ with
  | nil => simp [requireSources]
  | cons s rest ih => cases s <;> simp [requireSources, ih]

theorem requireSources_emitBindings (opts : Options) (h : String)
    (bs : List ImportSpecifier) :
    requireSources (emitBindings opts h bs) = [] := by
  induction bs with
  | nil => rfl
  | cons b rest ih => cases b <;> simp [emitBindings, requireSources, ih]

theorem emitImports_sources (opts : Options) (l : List ImportRecord) :
    ∀ u, requireSources (emitImports opts u l).1
      = l.map ImportRecord.sourceModule := by
  induction l with
  | nil => intro u; rfl
  | cons r rest ih =>
    intro u
    simp only [emitImports, requireSources, List.map_cons]
    rw [requireSources_append, requireSources_emitBindings, ih]
    rfl

theorem emitBindings_class (opts : Options) (h : String)
    (bs : List ImportSpecifier) :
    ∀ s ∈ emitBindings opts h bs,
      s.isImportEmission = true ∧ s.isESConstruct = false
        ∧ s.touchesExports = false := by
  induction bs with
  | nil => intro s hs; simp [emitBindings] at hs
  | cons b rest ih =>
    intro s hs
    cases b <;> simp only [emitBindings, List.mem_cons] at hs <;>
      rcases hs with rfl | hs <;>
      first
      | exact ⟨rfl, rfl, rfl⟩
      | exact ih s hs

theorem emitImports_class (opts : Options) (l : List ImportRecord) :
    ∀ u, ∀ s ∈ (emitImports opts u l).1,
      s.isImportEmission = true ∧ s.isESConstruct = false
        ∧ s.touchesExports = false := by
  induction l with
  | nil => intro u s hs; simp [emitImports] at hs
  | cons r rest ih =>
    intro u s hs
    simp only [emitImports, List.mem_cons, List.mem_append] at hs
    rcases hs with rfl | hs | hs
    · exact ⟨rfl, rfl, rfl⟩
    · exact emitBindings_class opts _ r.bindings s hs
    · exact ih (u ++ [fresh u "_module"]) s hs

theorem emitImports_names (opts : Options) (l : List ImportRecord) :
    ∀ u X, X ⊆ u → ∀ n ∈ (emitImports opts u l).2.2, n ∉ X := by
  induction l with
  | nil => intro u X _ n hn; simp [emitImports] at hn
  | cons r rest ih =>
    intro u X hX n hn
    simp only [emitImports, List.mem_cons] at hn
    rcases hn with rfl | hn
    · exact fun hc => fresh_not_mem u "_module" (hX hc)
    · exact ih (u ++ [fresh u "_module"]) X
        (fun {a} ha => List.mem_append_left _ (hX ha)) n hn

theorem emitExportAll_class (l : List ExportAllRecord) :
    ∀ s ∈ emitExportAll l,
      s.isImportEmission = false ∧ s.isESConstruct = false := by
  intro s hs
  rcases List.mem_map.mp hs with ⟨r, _, rfl⟩
  exact ⟨rfl, rfl⟩

theorem emitExportNamed_class (l : List ExportNamedRecord) :
    ∀ s ∈ emitExportNamed l,
      s.isImportEmission = false ∧ s.isESConstruct = false := by
  intro s hs
  rcases List.mem_map.mp hs with ⟨r, _, rfl⟩
  exact ⟨rfl, rfl⟩

theorem emitExportDefault_class (d : Option ExportDefaultRecord) :
    ∀ s ∈ emitExportDefault d,
      s.isImportEmission = false ∧ s.isESConstruct = false := by
  intro s hs
  cases d with
  | none => simp [emitExportDefault] at hs
  | some r =>
    simp only [emitExportDefault, List.mem_singleton] at hs
    subst hs
    exact ⟨rfl, rfl⟩

theorem transform_ok {p : List Stmt} {opts : Options} {r : TransformResult}
    (h : transform p opts = .ok r) :
    ∃ st, collectList (localBindings p) (initState p) p = .ok st
      ∧ r.isESModule = st.sawES
      ∧ r.rewrittenStatements
          = (emitImports opts st.used st.imports).1 ++ st.body
            ++ emitExportAll st.exportAll ++ emitExportNamed st.exportNamed
            ++ emitExportDefault st.exportDefault
      ∧ r.outAfter = opts.out.map (fun b => ⟨st.sawES, b.extra⟩)
      ∧ r.synthesized
          = st.synthesized ++ (emitImports opts st.used st.imports).2.2 := by
  unfold transform collect at h
  cases hc : collectList (localBindings p) (initState p) p with
  | error e => rw [hc] at h; cases h
  | ok st =>
    rw [hc] at h
    cases h
    exact ⟨st, rfl, rfl, by simp [List.append_assoc], rfl, rfl⟩

theorem runStmts_append (env : ModuleEnv) (rho : String → Nat) (ex : Exports)
    (l₁ l₂ : List Stmt) :
    runStmts env rho ex (l₁ ++ l₂) = runStmts env rho (runStmts env rho ex l₁) l₂ := by
  simp [runStmts, List.foldl_append]

theorem runStmt_no_touch {s : Stmt} (h : s.touchesExports = false)
    (env : ModuleEnv) (rho : String → Nat) (ex : Exports) :
    runStmt env rho ex s = ex := by
  cases s <;> simp [Stmt.touchesExports] at h <;> rfl

theorem runStmts_no_touch {l : List Stmt} (h : ∀ s ∈ l, s.touchesExports = false)
    (env : ModuleEnv) (rho : String → Nat) (ex : Exports) :
    runStmts env rho ex l = ex := by
  induction l generalizing ex with
  | nil => rfl
  | cons s rest ih =>
    have hstep : runStmt env rho ex s = ex := runStmt_no_touch (h s (by simp)) env rho ex
    calc runStmts env rho ex (s :: rest)
        = runStmts env rho (runStmt env rho ex s) rest := rfl
      _ = runStmts env rho ex rest := by rw [hstep]
      _ = ex := ih (fun t ht => h t (List.mem_cons_of_mem s ht)) ex

theorem runStmts_named_preserve (env : ModuleEnv) (rho : String → Nat)
    (x : String) (l : List ExportNamedRecord)
    (hl : ∀ rec ∈ l, rec.exportedName ≠ x) :
    ∀ ex, runStmts env rho ex (emitExportNamed l) x = ex x := by
  induction l with
  | nil => intro ex; rfl
  | cons rec rest ih =>
    intro ex
    have hhd : rec.exportedName ≠ x := hl rec (by simp)
    have hstep : runStmt env rho ex (.exportAssign rec.exportedName rec.localName) x
        = ex x := by
      simp only [runStmt]
      rw [if_neg (fun hc => hhd hc.symm)]
    calc runStmts env rho ex (emitExportNamed (rec :: rest)) x
        = runStmts env rho
            (runStmt env rho ex (.exportAssign rec.exportedName rec.localName))
            (emitExportNamed rest) x := rfl
      _ = runStmt env rho ex (.exportAssign rec.exportedName rec.localName) x :=
          ih (fun q hq => hl q (List.mem_cons_of_mem rec hq)) _
      _ = ex x := hstep

theorem runStmts_default_preserve (env : ModuleEnv) (rho : String → Nat)
    {x : String} (hx : x ≠ "default") (d : Option ExportDefaultRecord)
    (ex : Exports) :
    runStmts env rho ex (emitExportDefault d) x = ex x := by
  cases d with
  | none => rfl
  | some rec => simp [emitExportDefault, runStmts, runStmt, hx]

theorem runStmts_exportAll_pair (env : ModuleEnv) (rho : String → Nat)
    (ex : Exports) (ma mb x : String) {vb : Nat} (hb : env mb x = some vb) :
    runStmts env rho ex [Stmt.exportAllCall ma, Stmt.exportAllCall mb] x
      = some vb := by
  simp [runStmts, runStmt, hb]

theorem collectList_append (binds : List String) (xs ys : List Stmt) :
    ∀ st, collectList binds st (xs ++ ys)
      = match collectList binds st xs with
        | .error e => .error e
        | .ok st' => collectList binds st' ys := by
  induction xs with
  | nil => intro st; rfl
  | cons s rest ih =>
    intro st
    simp only [List.cons_append, collectList]
    cases collectStmt binds st s with
    | error e => rfl
    | ok st' => exact ih st'

theorem collectStmt_second_default {binds : List String} {st : CState}
    {s : Stmt} (hd : s.isDefaultExport = true)
    {d : ExportDefaultRecord} (hsome : st.exportDefault = some d) :
    collectStmt binds st s = .error (.DuplicateDefaultExport s.defLoc) := by
  cases s <;> simp [Stmt.isDefaultExport] at hd <;>
    simp [collectStmt, Stmt.defLoc, hsome]

theorem collectStmt_unbound_export {binds : List String} (st : CState)
    {x : String} (y : String) (loc : Loc) (hx : x ∉ binds) :
    collectStmt binds st (.exportNamedSpecs [(x, y)] none loc)
      = .error (.UndefinedExportBinding x loc) := by
  simp [collectStmt, collectSpecs, hx]

theorem programLocs_cons (s : Stmt) (rest : List Stmt) :
    programLocs (s :: rest) = programLocs [s] ++ programLocs rest := by
  cases s <;> simp [programLocs]

theorem collectStmt_error_loc {binds : List String} {st : CState} {s : Stmt}
    {e : TransformError} (h : collectStmt binds st s = .error e) :
    e.loc ∈ programLocs [s] := by
  cases s <;> simp only [collectStmt] at h <;> (repeat' split at h) <;>
    cases h <;>
    first
    | (simp [programLocs, TransformError.loc]; done)
    | (rename_i heq
       have hl := collectSpecs_error_loc heq
       simp [programLocs, hl])

theorem collectList_error_loc {binds : List String} {e : TransformError}
    (p : List Stmt) :
    ∀ st, collectList binds st p = .error e → e.loc ∈ programLocs p := by
  induction p with
  | nil => intro st h; simp only [collectList] at h; cases h
  | cons s rest ih =>
    intro st h
    simp only [collectList] at h
    cases hs : collectStmt binds st s with
    | error e' =>
      rw [hs] at h
      cases h
      rw [programLocs_cons]
      exact List.mem_append_left _ (collectStmt_error_loc hs)
    | ok st₁ =>
      rw [hs] at h
      rw [programLocs_cons]
      exact List.mem_append_right _ (ih st₁ h)

theorem transform_output_no_es {p : List Stmt} {opts : Options}
    {r : TransformResult} (h : transform p opts = .ok r) :
    ∀ s ∈ r.rewrittenStatements, s.isESConstruct = false := by
  obtain ⟨st, hc, _, hrw, _, _⟩ := transform_ok h
  obtain ⟨tail, htail, _, htES, _⟩ := collect_body _ p _ _ hc
  intro s hs
  rw [hrw] at hs
  simp only [List.append_assoc, List.mem_append] at hs
  rcases hs with hs | hs | hs | hs | hs
  · exact (emitImports_class opts st.imports st.used s hs).2.1
  · rw [htail] at hs
    simp only [initState, List.nil_append] at hs
    exact htES s hs
  · exact (emitExportAll_class st.exportAll s hs).2
  · exact (emitExportNamed_class st.exportNamed s hs).2
  · exact (emitExportDefault_class st.exportDefault s hs).2

theorem collect_no_es (binds : List String) (p : List Stmt)
    (h : ∀ s ∈ p, s.isESConstruct = false) :
    ∀ st, collectList binds st p = .ok { st with body := st.body ++ p } := by
  induction p with
  | nil =>
    intro st
    simp only [collectList]
    congr 1
    cases st
    simp
  | cons s rest ih =>
    intro st
    simp only [collectList, collectStmt_not_es binds st s (h s (by simp))]
    rw [ih (fun t ht => h t (List.mem_cons_of_mem s ht))]
    congr 1
    simp

theorem transform_no_es (p : List Stmt) (opts : Options)
    (h : ∀ s ∈ p, s.isESConstruct = false) :
    transform p opts
      = .ok ⟨false, p, opts.out.map (fun b => ⟨false, b.extra⟩), []⟩ := by
  have hc : collect p = .ok { initState p with body := p } := by
    have := collect_no_es (localBindings p) p h (initState p)
    simpa [collect, initState] using this
  unfold transform
  rw [hc]
  simp [initState, emitImports, emitExportAll, emitExportNamed, emitExportDefault]

/-- C3: for every program on which the transform succeeds, the resulting
`isESModule` flag is true iff the input contained at least one import or
export construct, even when every resulting emission is empty. -/
theorem C3_is_es_module (p : List Stmt) (opts : Options) (r : TransformResult)
    (h : transform p opts = .ok r) :
    r.isESModule = p.any Stmt.isESConstruct := by
  obtain ⟨st, hc, hflag, _, _, _⟩ := transform_ok h
  have hsaw := (collect_sources _ p _ _ hc).2.2
  simp only [initState, Bool.false_or] at hsaw
  rw [hflag, hsaw]

/-- Witness for C3 at the degenerate program `export {}`: the flag is up
although nothing is emitted. -/
theorem C3_witness : resC3.isESModule = progC3.any Stmt.isESConstruct :=
  C3_is_es_module progC3 optsW resC3 (by rfl)

/-- C4: a program without ES-module syntax transforms to itself with the
flag down, and re-running the transform on any successful output is a
no-op. -/
theorem C4_no_es_noop (p q : List Stmt) (opts : Options) (rq : TransformResult)
    (h : ∀ s ∈ p, s.isESConstruct = false)
    (hq : transform q opts = .ok rq) :
    (∃ r, transform p opts = .ok r ∧ r.isESModule = false
       ∧ r.rewrittenStatements = p)
    ∧ (∃ r', transform rq.rewrittenStatements opts = .ok r'
       ∧ r'.isESModule = false
       ∧ r'.rewrittenStatements = rq.rewrittenStatements) := by
  constructor
  · exact ⟨_, transform_no_es p opts h, rfl, rfl⟩
  · exact ⟨_, transform_no_es rq.rewrittenStatements opts
      (transform_output_no_es hq), rfl, rfl⟩

/-- Witness for C4 at a two-statement plain program and a one-import
program. -/
theorem C4_witness :
    (∃ r, transform progC4 optsW = .ok r ∧ r.isESModule = false
       ∧ r.rewrittenStatements = progC4)
    ∧ (∃ r', transform resC4q.rewrittenStatements optsW = .ok r'
       ∧ r'.isESModule = false
       ∧ r'.rewrittenStatements = resC4q.rewrittenStatements) :=
  C4_no_es_noop progC4 qC4 optsW resC4q (by decide) (by rfl)

/-- C7: when the transform fails, the error carries a source location of
an ES-module statement of the input, and no result is produced. -/
theorem C7_error_totality (p : List Stmt) (opts : Options) (e : TransformError)
    (h : transform p opts = .error e) :
    e.loc ∈ programLocs p ∧ (transform p opts).toOption = none := by
  constructor
  · unfold transform at h
    cases hc : collect p with
    | error e' =>
      rw [hc] at h
      cases h
      exact collectList_error_loc p _ (by simpa [collect] using hc)
    | ok st => rw [hc] at h; cases h
  · rw [h]; rfl

/-- Witness for C7 at `export default 1; export default 2;`. -/
theorem C7_witness :
    (TransformError.DuplicateDefaultExport 9).loc ∈ programLocs progC7
    ∧ (transform progC7 optsW).toOption = none :=
  C7_error_totality progC7 optsW (.DuplicateDefaultExport 9) (by rfl)

/-- C9: every name the transform synthesizes is distinct from every
identifier already present in the input program. -/
theorem C9_synthesized_fresh (p : List Stmt) (opts : Options)
    (r : TransformResult) (h : transform p opts = .ok r) :
    List.Disjoint r.synthesized (programIdents p) := by
  obtain ⟨st, hc, _, _, _, hsyn⟩ := transform_ok h
  have h1 := collect_names _ p _ _ hc (programIdents p)
      (by intro a ha; simpa [initState] using ha)
      (by intro n hn; simp [initState] at hn)
  have h2 := emitImports_names opts st.imports st.used (programIdents p) h1.1
  intro n hn hmem
  rw [hsyn] at hn
  rcases List.mem_append.mp hn with h3 | h3
  · exact h1.2 n h3 hmem
  · exact h2 n h3 hmem

/-- Witness for C9 at `export default 42;` in a program that already binds
the first candidate name `_default`. -/
theorem C9_witness : List.Disjoint resC9.synthesized (programIdents progC9) :=
  C9_synthesized_fresh progC9 optsW resC9 (by rfl)

/-- C10 as stated is false: the options declared by the plugin carry a
fourth field `out`, and the transform delivers the `isESModule` result by
writing through it.  At `prog10`/`opts10` the `out` object's content after
the call differs from the caller-supplied content. -/
theorem C10_out_is_written :
    transform prog10 opts10 = .ok res10
    ∧ res10.outAfter ≠ opts10.out := by
  constructor
  · rfl
  · decide

/-- C10 (amended): the configuration is the four declared fields
`importDefault`, `importAll`, `resolve` and the optional `out`; on success
the transform writes `isESModule` into the caller-supplied `out` object
(preserving its other keys), rather than only returning it. -/
theorem C10_amended_out_channel (p : List Stmt) (opts : Options)
    (r : TransformResult) (h : transform p opts = .ok r) :
    r.outAfter = opts.out.map (fun b => ⟨r.isESModule, b.extra⟩) := by
  obtain ⟨st, _, hflag, _, hout, _⟩ := transform_ok h
  rw [hout, hflag]

/-- Witness for the amended C10. -/
theorem C10_amended_witness :
    res10.outAfter = opts10.out.map (fun b => ⟨res10.isESModule, b.extra⟩) :=
  C10_amended_out_channel prog10 opts10 res10 (by rfl)

theorem takeWhile_dropWhile_split {α : Type} (q : α → Bool) (l₁ l₂ : List α)
    (h₁ : ∀ a ∈ l₁, q a = true) (h₂ : ∀ a ∈ l₂, q a = false) :
    (l₁ ++ l₂).takeWhile q = l₁ ∧ (l₁ ++ l₂).dropWhile q = l₂ := by
  induction l₁ with
  | nil =>
    cases l₂ with
    | nil => simp
    | cons b t => simp [List.takeWhile, List.dropWhile, h₂ b (by simp)]
  | cons a t ih =>
    have ha := h₁ a (by simp)
    obtain ⟨iht, ihd⟩ := ih (fun x hx => h₁ x (List.mem_cons_of_mem a hx))
    simp [List.takeWhile, List.dropWhile, ha, iht, ihd]

/-- C8: the transform reads the caller's cell but never writes it: after an
invocation every pre-existing cell of the caller's store is unchanged, and
a successful result's statement list lives in a freshly appended cell. -/
theorem C8_no_input_mutation (sigma : Store) (i : Nat) (p : List Stmt)
    (opts : Options) (h : sigma[i]? = some p) :
    ((invoke sigma i opts).1)[i]? = some p
    ∧ (invoke sigma i opts).1.take sigma.length = sigma
    ∧ (invoke sigma i opts).1
        = sigma ++ ((invoke sigma i opts).2.toOption.map
            TransformResult.rewrittenStatements).toList := by
  have hlt : i < sigma.length := by
    by_contra hge
    rw [List.getElem?_eq_none (by omega)] at h
    cases h
  cases ht : transform p opts with
  | error e =>
    have hi : invoke sigma i opts = (sigma, .error e) := by
      simp [invoke, h, ht]
    rw [hi]
    exact ⟨h, by simp, by simp [Except.toOption]⟩
  | ok r =>
    have hi : invoke sigma i opts = (sigma ++ [r.rewrittenStatements], .ok r) := by
      simp [invoke, h, ht]
    rw [hi]
    refine ⟨?_, ?_, ?_⟩
    · rw [show (sigma ++ [r.rewrittenStatements], Except.ok (ε := TransformError) r).1
          = sigma ++ [r.rewrittenStatements] from rfl,
        List.getElem?_append_left hlt]
      exact h
    · exact List.take_left sigma [r.rewrittenStatements]
    · simp [Except.toOption]

/-- Witness for C8 at a one-cell store. -/
theorem C8_witness :
    ((invoke sigmaW 0 optsW).1)[0]? = some progC4
    ∧ (invoke sigmaW 0 optsW).1.take sigmaW.length = sigmaW
    ∧ (invoke sigmaW 0 optsW).1
        = sigmaW ++ (((invoke sigmaW 0 optsW).2.toOption.map
            TransformResult.rewrittenStatements)).toList :=
  C8_no_input_mutation sigmaW 0 progC4 optsW (by rfl)

/-- C1: in any successful transform of a surface program, the output is
an import block followed by statements none of which is an import emission;
the require calls of the block list the import sources of the program in
their original order, and the program's non-import/export statements occur
in the remainder in their original relative order. -/
theorem C1_import_hoisting (p : List Stmt) (opts : Options)
    (r : TransformResult) (hsf : p.all Stmt.isSurface = true)
    (h : transform p opts = .ok r) :
    ((r.rewrittenStatements.dropWhile Stmt.isImportEmission).all
        (fun s => !s.isImportEmission) = true)
    ∧ requireSources (r.rewrittenStatements.takeWhile Stmt.isImportEmission)
        = importSourcesOf p
    ∧ List.Sublist (p.filter (fun s => !s.isESConstruct))
        (r.rewrittenStatements.dropWhile Stmt.isImportEmission) := by
  obtain ⟨st, hc, _, hrw, _, _⟩ := transform_ok h
  have hsurf : ∀ s ∈ p, s.isSurface = true := List.all_eq_true.mp hsf
  obtain ⟨tail, htail, hsub, _, hclass⟩ := collect_body _ p _ _ hc
  simp only [initState, List.nil_append] at htail
  have hbody := hclass hsurf
  have hrest : ∀ s ∈ st.body ++ emitExportAll st.exportAll
      ++ emitExportNamed st.exportNamed ++ emitExportDefault st.exportDefault,
      s.isImportEmission = false := by
    intro s hs
    simp only [List.append_assoc, List.mem_append] at hs
    rcases hs with hs | hs | hs | hs
    · rw [htail] at hs
      exact (hbody s hs).1
    · exact (emitExportAll_class st.exportAll s hs).1
    · exact (emitExportNamed_class st.exportNamed s hs).1
    · exact (emitExportDefault_class st.exportDefault s hs).1
  have hrw' : r.rewrittenStatements
      = (emitImports opts st.used st.imports).1
        ++ (st.body ++ emitExportAll st.exportAll
            ++ emitExportNamed st.exportNamed
            ++ emitExportDefault st.exportDefault) := by
    rw [hrw]; simp [List.append_assoc]
  obtain ⟨htake, hdrop⟩ := takeWhile_dropWhile_split Stmt.isImportEmission
    (emitImports opts st.used st.imports).1
    (st.body ++ emitExportAll st.exportAll ++ emitExportNamed st.exportNamed
      ++ emitExportDefault st.exportDefault)
    (fun a ha => (emitImports_class opts st.imports st.used a ha).1) hrest
  rw [hrw', htake, hdrop]
  refine ⟨?_, ?_, ?_⟩
  · exact List.all_eq_true.mpr (fun s hs => by simp [hrest s hs])
  · rw [emitImports_sources]
    have him := (collect_sources _ p _ _ hc).1
    simpa [initState] using him
  · rw [← htail] at hsub
    have : List.Sublist st.body (st.body ++ (emitExportAll st.exportAll
        ++ emitExportNamed st.exportNamed ++ emitExportDefault st.exportDefault)) :=
      List.sublist_append_left _ _
    simp only [List.append_assoc] at this ⊢
    exact hsub.trans this

/-- Witness for C1 at a program with one plain statement between an import
and an `export *`. -/
theorem C1_witness :
    ((resC1.rewrittenStatements.dropWhile Stmt.isImportEmission).all
        (fun s => !s.isImportEmission) = true)
    ∧ requireSources (resC1.rewrittenStatements.takeWhile Stmt.isImportEmission)
        = importSourcesOf progC1
    ∧ List.Sublist (progC1.filter (fun s => !s.isESConstruct))
        (resC1.rewrittenStatements.dropWhile Stmt.isImportEmission) :=
  C1_import_hoisting progC1 optsW resC1 (by decide) (by rfl)

/-- C2: a second `export default` (reached after the preceding statements
collect without another diagnostic) aborts the transform with
`DuplicateDefaultExport` at the second occurrence's location, and a
successful transform implies the program had at most one `export default`. -/
theorem C2_duplicate_default (p pre post : List Stmt) (d2 : Stmt)
    (opts : Options) (st : CState) (d : ExportDefaultRecord)
    (q : List Stmt) (opts' : Options) (r : TransformResult)
    (hp : p = pre ++ d2 :: post)
    (hpre : collectList (localBindings p) (initState p) pre = .ok st)
    (hseen : st.exportDefault = some d)
    (hd : d2.isDefaultExport = true)
    (hq : transform q opts' = .ok r) :
    transform p opts = .error (.DuplicateDefaultExport d2.defLoc)
    ∧ (q.filter Stmt.isDefaultExport).length ≤ 1 := by
  constructor
  · have hcol : collect p = .error (.DuplicateDefaultExport d2.defLoc) := by
      unfold collect
      rw [hp] at hpre ⊢
      rw [collectList_append, hpre]
      simp only [collectList]
      rw [collectStmt_second_default hd hseen]
    unfold transform
    rw [hcol]
  · obtain ⟨stq, hcq, _⟩ := transform_ok hq
    have hcnt := (collect_defaults _ q _ _ hcq).2.2.1
    simp only [initState] at hcnt
    exact hcnt trivial

/-- Witness for C2 at `export default 1; export default 2;`. -/
theorem C2_witness :
    transform progC2 optsW
      = .error (.DuplicateDefaultExport (Stmt.exportDefaultExpr 2 20).defLoc)
    ∧ (qC4.filter Stmt.isDefaultExport).length ≤ 1 :=
  C2_duplicate_default progC2 preC2 [] (.exportDefaultExpr 2 20) optsW stC2
    ⟨"_default", 10⟩ qC4 optsW resC4q (by decide) (by rfl) (by decide)
    (by decide) (by rfl)

/-- C6: a source-less `export { x }` whose local `x` is bound nowhere in
the program (reached after the preceding statements collect without
another diagnostic) aborts the transform with `UndefinedExportBinding`
carrying the name and the statement's location; and on any successful
transform every source-less named export refers only to locally bound
names (never a silent drop). -/
theorem C6_undefined_export (p pre post : List Stmt) (x y : String)
    (loc : Loc) (opts : Options) (st : CState)
    (q : List Stmt) (opts' : Options) (r : TransformResult)
    (hp : p = pre ++ Stmt.exportNamedSpecs [(x, y)] none loc :: post)
    (hx : x ∉ localBindings p)
    (hpre : collectList (localBindings p) (initState p) pre = .ok st)
    (hq : transform q opts' = .ok r) :
    transform p opts = .error (.UndefinedExportBinding x loc)
    ∧ sourcelessExportLocalsBound q = true := by
  constructor
  · have hcol : collect p = .error (.UndefinedExportBinding x loc) := by
      unfold collect
      rw [hp] at hpre ⊢
      rw [collectList_append, hpre]
      simp only [collectList]
      rw [collectStmt_unbound_export st y loc (by rw [← hp]; exact hx)]
    unfold transform
    rw [hcol]
  · obtain ⟨stq, hcq, _⟩ := transform_ok hq
    have hbound := (collect_named _ q _ _ hcq).2
    unfold sourcelessExportLocalsBound
    rw [List.all_eq_true]
    intro s hs
    cases s with
    | exportNamedSpecs specs osrc l =>
      cases osrc with
      | none =>
        rw [List.all_eq_true]
        intro pr hpr
        simpa using hbound specs l hs pr hpr
      | some src => rfl
    | importDecl a b c => rfl
    | exportDefaultExpr a b => rfl
    | exportDefaultNamed a b c => rfl
    | exportDecl a b c => rfl
    | exportAllDecl a b => rfl
    | other a b => rfl
    | requireCall a b c => rfl
    | importBinding a b => rfl
    | defaultTemp a b => rfl
    | exportAllCall a => rfl
    | exportAssign a b => rfl
    | exportDefaultAssign a => rfl

/-- Witness for C6 at `export { missing };`. -/
theorem C6_witness :
    transform progC6 optsW = .error (.UndefinedExportBinding "missing" 5)
    ∧ sourcelessExportLocalsBound qC6 = true :=
  C6_undefined_export progC6 [] [] "missing" "m2" 5 optsW (initState progC6)
    qC6 optsW resC6q (by decide) (by decide) (by rfl) (by rfl)

/-- C5: when a surface program's `export *` records are exactly
`["a", "b"]` (in that source order) and no named or default export shadows
the property `x`, the emitted re-export calls run in source order, so the
final re-exported `x` is module `b`'s value: last write wins. -/
theorem C5_export_all_last_wins (p : List Stmt) (opts : Options)
    (r : TransformResult) (env : ModuleEnv) (rho : String → Nat)
    (ex0 : Exports) (ma mb x : String) (va vb : Nat)
    (hsf : p.all Stmt.isSurface = true)
    (h : transform p opts = .ok r)
    (hall : exportAllSources p = [ma, mb])
    (hx : x ∉ exportedNames p)
    (ha : env ma x = some va)
    (hb : env mb x = some vb) :
    runStmts env rho ex0 r.rewrittenStatements x = some vb := by
  obtain ⟨st, hc, _, hrw, _, _⟩ := transform_ok h
  have hsurf : ∀ s ∈ p, s.isSurface = true := List.all_eq_true.mp hsf
  obtain ⟨tail, htail, _, _, hclass⟩ := collect_body _ p _ _ hc
  simp only [initState, List.nil_append] at htail
  have hbody := hclass hsurf
  have himp : ∀ s ∈ (emitImports opts st.used st.imports).1,
      s.touchesExports = false :=
    fun s hs => (emitImports_class opts st.imports st.used s hs).2.2
  have hall' : emitExportAll st.exportAll
      = [Stmt.exportAllCall ma, Stmt.exportAllCall mb] := by
    have hmap2 := (collect_sources _ p _ _ hc).2.1
    simp only [initState, List.map_nil, List.nil_append] at hmap2
    have hmm : emitExportAll st.exportAll
        = (st.exportAll.map ExportAllRecord.sourceModule).map Stmt.exportAllCall := by
      rw [List.map_map]
      rfl
    rw [hmm, hmap2, hall]
    rfl
  have hnamed : ∀ rec ∈ st.exportNamed, rec.exportedName ≠ x := by
    intro rec hrec hcx
    rcases (collect_named _ p _ _ hc).1 rec hrec with hmem | hrem
    · simp [initState] at hmem
    · exact hx (hcx ▸ hrem)
  rw [hrw, runStmts_append, runStmts_append, runStmts_append, runStmts_append,
    runStmts_no_touch himp,
    runStmts_no_touch (fun s hs => (hbody s (htail ▸ hs)).2),
    hall']
  have hE : runStmts env rho ex0
      [Stmt.exportAllCall ma, Stmt.exportAllCall mb] x = some vb :=
    runStmts_exportAll_pair env rho ex0 ma mb x hb
  have hN : runStmts env rho
      (runStmts env rho ex0 [Stmt.exportAllCall ma, Stmt.exportAllCall mb])
      (emitExportNamed st.exportNamed) x = some vb := by
    rw [runStmts_named_preserve env rho x st.exportNamed hnamed]
    exact hE
  cases hd : st.exportDefault with
  | none =>
    simpa [emitExportDefault, runStmts] using hN
  | some rec =>
    have hdmem : "default" ∈ exportedNames p := by
      rcases (collect_defaults _ p _ _ hc).2.1 rec hd with hinit | hmem
      · simp [initState] at hinit
      · exact hmem
    have hdx : x ≠ "default" := fun hxeq => hx (hxeq ▸ hdmem)
    rw [runStmts_default_preserve env rho hdx]
    exact hN

/-- Witness for C5 at `export * from "a"; export * from "b";` in a runtime
environment where both modules define `x` (values 1 and 2). -/
theorem C5_witness :
    runStmts envW rhoW exW resC5.rewrittenStatements "x" = some 2 :=
  C5_export_all_last_wins progC5 optsW resC5 envW rhoW exW "a" "b" "x" 1 2
    (by decide) (by rfl) (by decide) (by decide) (by rfl) (by rfl)

end ImportExport
